import Mathlib

/-!
The MEX gateway of the inverse Logicle transform (`logicleInverseTransform.cpp`)

A shallow embedding of `src/logicle/logicleInverseTransform.cpp`.

* `double` values are an abstract type `V`: the code only moves them around and hands them
  to the `Logicle` class.
* The `Logicle` class comes from `logicle.h`, which the file includes; its constructor and its
  `inverse` member are parameters of the embedding (`LogicleClass`).  Both signal failure by
  throwing a `const char*`, which is what the `catch` clause of `logicle_here` handles.
* Buffers are lists, indexed with `Option`-returning accessors; an access outside the buffer
  ends the run with `Exit.outOfBounds`.
* The loop counter is the C `int` (32 bit, signed).  Incrementing it past `INT_MAX` is undefined
  behaviour in C++; the run then ends with `Exit.intOverflow`.  `size_t` is 64 bit and its
  arithmetic is taken modulo `2 ^ 64`.
* Every result carries the list of calls made, in program order (`Event`).
-/

namespace LogicleInverse

/-! ## Machine integers -/

/-- Largest value of the 32-bit signed `int` loop counter. -/
def INT_MAX : Int := 2147483647

/-- Number of values of the 64-bit `size_t`. -/
def SIZE_MOD : Nat := 18446744073709551616

/-- Conversion of an `int` to `size_t`: the usual arithmetic conversion that the comparison
`i < size_m*size_n` applies to `i`. -/
def toSize (i : Int) : Nat := (i % (SIZE_MOD : Int)).toNat

/-- The product `size_m*size_n`, computed in `size_t`. -/
def mulSize (size_m size_n : Nat) : Nat := (size_m * size_n) % SIZE_MOD

/-! ## Buffers -/

/-- Read `buf[i]` for an `int` index. -/
def index {V : Type} (buf : List V) (i : Int) : Option V :=
  if 0 ≤ i then buf[i.toNat]? else none

/-- Write `buf[i] = v` for an `int` index. -/
def store {V : Type} (buf : List V) (i : Int) (v : V) : Option (List V) :=
  if 0 ≤ i ∧ i.toNat < buf.length then some (buf.set i.toNat v) else none

/-! ## The external collaborators -/

/-- The class `Logicle` of `logicle.h`: `construct T W M A` is `new Logicle(T, W, M, A)` and
`inverse lg v` is `lg->inverse(v)`.  An `Except.error str` is a thrown `const char*`. -/
structure LogicleClass (V L : Type) where
  construct : V → V → V → V → Except String L
  inverse : L → V → Except String V

/-- A full real matrix of the host: `m` is `mxGetM`, `n` is `mxGetN`, `pr` is the data
behind `mxGetPr`. -/
structure mxArray (V : Type) where
  m : Nat
  n : Nat
  pr : List V
  deriving DecidableEq, Repr

/-! ## Results -/

/-- The calls the code makes, in program order. -/
inductive Event (V L : Type) where
  /-- A call `mxCreateDoubleMatrix(m, n, mxREAL)`. -/
  | mxCreateDoubleMatrix (m n : Nat)
  /-- The expression `new Logicle(T[0], W[0], M[0], A[0])`. -/
  | newLogicle (T W M A : V)
  /-- The call `lg->inverse(x[i])`, with the value read from `x[i]`. -/
  | inverse (lg : L) (i : Int) (xi : V)
  /-- The assignment `y[i] = v`. -/
  | assign (i : Int) (v : V)
  /-- The statement `delete lg`. -/
  | delete (lg : L)
  /-- A call `mexErrMsgTxt(str)`. -/
  | mexErrMsgTxt (str : String)
  /-- A call `mexErrMsgIdAndTxt(id, msg)`. -/
  | mexErrMsgIdAndTxt (id msg : String)
  deriving DecidableEq, Repr

/-- How a run ends. -/
inductive Exit where
  /-- Control reached the end of the loop or the `return` statement. -/
  | returned
  /-- A `const char*` exception left the loop. -/
  | thrown (str : String)
  /-- The host error channel was entered through `mexErrMsgTxt`, which does not return. -/
  | errMsgTxt (str : String)
  /-- The host error channel was entered through `mexErrMsgIdAndTxt`, which does not return. -/
  | errMsgIdAndTxt (id msg : String)
  /-- An access outside a buffer. -/
  | outOfBounds
  /-- The increment `i++` at `i = INT_MAX`. -/
  | intOverflow
  /-- The iteration budget of the embedding ran out. -/
  | fuelExhausted
  deriving DecidableEq, Repr

/-- The outcome of a run: how it ended, the contents of the output buffer `y` at that point,
and the calls made. -/
structure Result (V L : Type) where
  exit : Exit
  y : List V
  trace : List (Event V L)
  deriving DecidableEq, Repr

/-- The same outcome, preceded by the calls `evs`. -/
def Result.after {V L : Type} (evs : List (Event V L)) (r : Result V L) : Result V L :=
  ⟨r.exit, r.y, evs ++ r.trace⟩

/-! ## The code -/

/-- The loop `for (int i = 0; i < size_m*size_n; i++) { y[i] = lg->inverse(x[i]); }`
of `logicle_here`, entered at the loop test with counter `i` and output buffer `y`. -/
def forLoop {V L : Type} (lib : LogicleClass V L) (lg : L) (x : List V) (size_m size_n : Nat) :
    Nat → Int → List V → Result V L
  | 0, _, y => ⟨.fuelExhausted, y, []⟩
  | fuel + 1, i, y =>
    if toSize i < mulSize size_m size_n then
      match index x i with
      | none => ⟨.outOfBounds, y, []⟩
      | some xi =>
        match lib.inverse lg xi with
        | .error str => ⟨.thrown str, y, [.inverse lg i xi]⟩
        | .ok v =>
          match store y i v with
          | none => ⟨.outOfBounds, y, [.inverse lg i xi]⟩
          | some y1 =>
            if i = INT_MAX then ⟨.intOverflow, y1, [.inverse lg i xi, .assign i v]⟩
            else (forLoop lib lg x size_m size_n fuel (i + 1) y1).after
              [.inverse lg i xi, .assign i v]
    else ⟨.returned, y, []⟩

/-- Iteration budget given to `forLoop`: the counter takes at most `INT_MAX + 1` values. -/
def loopFuel : Nat := 2147483648

/-- The part of `logicle_here` after a successful `new Logicle(...)`: the loop, then either
`if (lg != NULL) delete lg;` and `return`, or the `catch` clause with its call of
`mexErrMsgTxt(str)`.  A `new` expression that returns never yields `NULL`, so the test
`lg != NULL` holds whenever it is reached. -/
def withLogicle {V L : Type} (lib : LogicleClass V L) (lg : L) (y x : List V)
    (size_m size_n : Nat) : Result V L :=
  let r := forLoop lib lg x size_m size_n loopFuel 0 y
  match r.exit with
  | .returned => ⟨.returned, r.y, r.trace ++ [.delete lg]⟩
  | .thrown str => ⟨.errMsgTxt str, r.y, r.trace ++ [.mexErrMsgTxt str]⟩
  | _ => r

/-- The function `logicle_here(y, x, T, W, M, A, size_m, size_n)`: the `try` block reads
`T[0], W[0], M[0], A[0]`, evaluates `new Logicle(...)` and continues with `withLogicle`; a
`const char*` thrown by the constructor goes to the `catch` clause, which calls
`mexErrMsgTxt(str)`. -/
def logicle_here {V L : Type} (lib : LogicleClass V L) (y x T W M A : List V)
    (size_m size_n : Nat) : Result V L :=
  match T[0]?, W[0]?, M[0]?, A[0]? with
  | some t, some w, some m, some a =>
    match lib.construct t w m a with
    | .error str => ⟨.errMsgTxt str, y, [.newLogicle t w m a, .mexErrMsgTxt str]⟩
    | .ok lg => (withLogicle lib lg y x size_m size_n).after [.newLogicle t w m a]
  | _, _, _, _ => ⟨.outOfBounds, y, []⟩

/-- The argument count `nrhs` that comes with the argument array `prhs`. -/
def nrhs {V : Type} (prhs : List (mxArray V)) : Int := prhs.length

/-- The function `mexFunction(nlhs, plhs, nrhs, prhs)`.  The two argument checks call
`mexErrMsgIdAndTxt`, which does not return; otherwise `x_in = prhs[0]`, ..., `A_in = prhs[4]`,
the output matrix `y_out` is created with the dimensions of `x_in` (the host fills it with
zeros) and `logicle_here` runs on the data of the six matrices.  The result holds the data
of `y_out`. -/
def mexFunction {V L : Type} [Zero V] (lib : LogicleClass V L) (nlhs : Int)
    (prhs : List (mxArray V)) : Result V L :=
  if nrhs prhs ≠ 5 then
    ⟨.errMsgIdAndTxt "MATLAB:c_test:invalidNumInputs" "Five input arguments required.", [],
      [.mexErrMsgIdAndTxt "MATLAB:c_test:invalidNumInputs" "Five input arguments required."]⟩
  else if nlhs > 1 then
    ⟨.errMsgIdAndTxt "MATLAB:c_test:maxlhs" "Too many output arguments.", [],
      [.mexErrMsgIdAndTxt "MATLAB:c_test:maxlhs" "Too many output arguments."]⟩
  else
    match prhs with
    | [x_in, T_in, W_in, M_in, A_in] =>
      let m := x_in.m
      let n := x_in.n
      let y := List.replicate (m * n) (0 : V)
      (logicle_here lib y x_in.pr T_in.pr W_in.pr M_in.pr A_in.pr m n).after
        [.mxCreateDoubleMatrix m n]
    | _ => ⟨.outOfBounds, [], []⟩

/-! ## Vocabulary for the statements

The definitions of this section are not part of the code: they name what the theorems
below say about the results of the code. -/

/-- The value of `lg->inverse(v)` when the call returns, and `v` itself when it throws. -/
def inverseOr {V L : Type} (lib : LogicleClass V L) (lg : L) (v : V) : V :=
  match lib.inverse lg v with
  | .ok u => u
  | .error _ => v

/-- The calls made by consecutive runs of the loop body over the values `vs`, the first of
them at index `k`, when `lg->inverse(v)` returns `g v`. -/
def bodyEvents {V L : Type} (lg : L) (g : V → V) : Nat → List V → List (Event V L)
  | _, [] => []
  | k, v :: vs => .inverse lg k v :: .assign k (g v) :: bodyEvents lg g (k + 1) vs

/-- What a call made by the loop body looks like: `lg->inverse(x[i])` is made on the instance
`lg` with a value read inside `x`, and `y[i] = v` writes inside a buffer of `ny` elements. -/
def Event.ofBody {V L : Type} (lg : L) (x : List V) (ny : Nat) : Event V L → Prop
  | .inverse lg1 i xi => lg1 = lg ∧ index x i = some xi
  | .assign i _ => 0 ≤ i ∧ i.toNat < ny
  | _ => False

/-- The counter values at which the loop body was entered: the indices of the calls
`lg->inverse(x[i])`, in the order they were made. -/
def bodyIndices {V L : Type} : List (Event V L) → List Int
  | [] => []
  | .inverse _ i _ :: es => i :: bodyIndices es
  | _ :: es => bodyIndices es

/-- Whether a call reads or writes inside the buffers: `lg->inverse(x[i])` reads `x[i]` and
`y[i] = v` writes into a buffer of `ny` elements. -/
def Event.inBounds {V L : Type} (x : List V) (ny : Nat) : Event V L → Prop
  | .inverse _ i xi => 0 ≤ i ∧ i.toNat < x.length ∧ x[i.toNat]? = some xi
  | .assign i _ => 0 ≤ i ∧ i.toNat < ny
  | _ => True

/-- The ways the loop itself can end: every way but the two host error calls. -/
def Exit.ofLoop : Exit → Prop
  | .errMsgTxt _ => False
  | .errMsgIdAndTxt _ _ => False
  | _ => True

/-! ## A small instance of the external class, for concrete runs -/

/-- The four parameters held by a transform instance. -/
structure Params where
  T : Int
  W : Int
  M : Int
  A : Int
  deriving DecidableEq, Repr

/-- Modelled from the spec: the constructor and the `inverse` member of `Logicle` (`logicle.h`
is not part of the sources).  The constructor rejects a non-positive `T` or `M` with a
message; `inverse` rejects a scaled value outside `[0, M]` with a message and is otherwise a
function of the parameters and the value. -/
def sampleLogicle : LogicleClass Int Params where
  construct := fun T W M A =>
    if T ≤ 0 then .error "IllegalParameter: T is not positive"
    else if M ≤ 0 then .error "IllegalParameter: M is not positive"
    else .ok ⟨T, W, M, A⟩
  inverse := fun lg v =>
    if v < 0 ∨ lg.M < v then .error "IllegalArgument: scale value out of range"
    else .ok (lg.T * v - lg.W)


/-! ## Machine integers and buffers -/

theorem mulSize_lt (size_m size_n : Nat) : mulSize size_m size_n < SIZE_MOD :=
  Nat.mod_lt _ (by decide)

theorem mulSize_eq {size_m size_n : Nat} (h : size_m * size_n < SIZE_MOD) :
    mulSize size_m size_n = size_m * size_n :=
  Nat.mod_eq_of_lt h

theorem toSize_natCast {k : Nat} (h : k < SIZE_MOD) : toSize (k : Int) = k := by
  unfold toSize
  rw [Int.emod_eq_of_lt (by omega) (by exact_mod_cast h)]
  simp

theorem index_natCast {V : Type} (buf : List V) (k : Nat) : index buf (k : Int) = buf[k]? := by
  simp [index]

theorem store_natCast {V : Type} (buf : List V) (k : Nat) (v : V) (h : k < buf.length) :
    store buf (k : Int) v = some (buf.set k v) := by
  simp [store, h]

/-! ## The loop -/

theorem exit_after {V L : Type} (evs : List (Event V L)) (r : Result V L) :
    (r.after evs).exit = r.exit := rfl

theorem trace_after {V L : Type} (evs : List (Event V L)) (r : Result V L) :
    (r.after evs).trace = evs ++ r.trace := rfl

theorem y_after {V L : Type} (evs : List (Event V L)) (r : Result V L) :
    (r.after evs).y = r.y := rfl

theorem after_after {V L : Type} (e1 e2 : List (Event V L)) (r : Result V L) :
    (r.after e2).after e1 = r.after (e1 ++ e2) := by
  simp [Result.after]

theorem forLoop_steps {V L : Type} (lib : LogicleClass V L) (lg : L) (g : V → V)
    (size_m size_n : Nat) (xr : List V) :
    ∀ (vs xd yd yr : List V) (fuel : Nat),
      xd.length = yd.length → vs.length ≤ yr.length →
      xd.length + vs.length ≤ mulSize size_m size_n →
      xd.length + vs.length ≤ 2147483647 →
      (∀ v ∈ vs, lib.inverse lg v = .ok (g v)) →
      forLoop lib lg (xd ++ vs ++ xr) size_m size_n (fuel + vs.length) (xd.length : Int)
          (yd ++ yr)
        = (forLoop lib lg (xd ++ vs ++ xr) size_m size_n fuel
            ((xd.length + vs.length : Nat) : Int)
            (yd ++ vs.map g ++ yr.drop vs.length)).after (bodyEvents lg g xd.length vs) := by
  intro vs
  induction vs with
  | nil =>
    intro xd yd yr fuel _ _ _ _ _
    simp [bodyEvents, Result.after]
  | cons v vs ih =>
    intro xd yd yr fuel hxy hlen hN hmax hok
    obtain ⟨r, yr1, rfl⟩ : ∃ r yr1, yr = r :: yr1 := by
      cases yr with
      | nil => simp at hlen
      | cons r yr1 => exact ⟨r, yr1, rfl⟩
    simp only [List.length_cons] at hlen hN hmax
    have hlt : toSize (xd.length : Int) < mulSize size_m size_n := by
      rw [toSize_natCast (by have := mulSize_lt size_m size_n; omega)]
      omega
    have hidx : index (xd ++ (v :: vs) ++ xr) (xd.length : Int) = some v := by
      rw [index_natCast, List.append_assoc, List.getElem?_append_right (le_refl _)]; simp
    have hst : store (yd ++ r :: yr1) (xd.length : Int) (g v) = some (yd ++ g v :: yr1) := by
      rw [store_natCast _ _ _ (by simp; omega), hxy]; simp
    have hne : ¬ ((xd.length : Int) = INT_MAX) := by
      unfold INT_MAX; omega
    have hv : lib.inverse lg v = .ok (g v) := hok v (by simp)
    have hfuel : fuel + (v :: vs).length = (fuel + vs.length) + 1 := by simp; omega
    rw [hfuel, forLoop]
    simp only [hlt, if_true, hidx, hv, hst, hne, if_false]
    have := ih (xd ++ [v]) (yd ++ [g v]) yr1 fuel (by simp [hxy]) (by omega)
      (by simp; omega) (by simp; omega) (fun u hu => hok u (by simp [hu]))
    simp only [List.append_assoc, List.singleton_append, List.length_append,
      List.length_singleton, Nat.cast_add, Nat.cast_one] at this
    simp only [List.append_assoc, List.cons_append, Nat.cast_add, Nat.cast_one]
    simp only [List.cons_append] at this
    rw [this, after_after]
    simp only [bodyEvents, List.length_cons, List.map_cons, List.drop_succ_cons,
      List.cons_append, List.nil_append, Nat.cast_add, Nat.cast_one, add_assoc,
      add_comm (1 : Int)]

/-- The loop from its start, over a first stretch `vs` of the input on which `inverse`
returns. -/
theorem forLoop_start {V L : Type} (lib : LogicleClass V L) (lg : L) (g : V → V)
    (size_m size_n : Nat) (vs xr y : List V)
    (hy : vs.length ≤ y.length) (hN : vs.length ≤ mulSize size_m size_n)
    (hmax : vs.length ≤ 2147483647) (hok : ∀ v ∈ vs, lib.inverse lg v = .ok (g v)) :
    forLoop lib lg (vs ++ xr) size_m size_n loopFuel 0 y
      = (forLoop lib lg (vs ++ xr) size_m size_n (loopFuel - vs.length) (vs.length : Int)
          (vs.map g ++ y.drop vs.length)).after (bodyEvents lg g 0 vs) := by
  have h := forLoop_steps lib lg g size_m size_n xr vs [] [] y (loopFuel - vs.length) rfl hy
    (by simpa using hN) (by simpa using hmax) hok
  have hf : loopFuel - vs.length + vs.length = loopFuel := by unfold loopFuel; omega
  simpa [hf] using h

/-- The loop runs to completion when `inverse` returns on every element and the counter
does not reach `INT_MAX`. -/
theorem forLoop_returned {V L : Type} (lib : LogicleClass V L) (lg : L) (g : V → V)
    (size_m size_n : Nat) (x y : List V)
    (hx : x.length = mulSize size_m size_n) (hy : x.length ≤ y.length)
    (hmax : x.length ≤ 2147483647) (hok : ∀ v ∈ x, lib.inverse lg v = .ok (g v)) :
    forLoop lib lg x size_m size_n loopFuel 0 y
      = ⟨.returned, x.map g ++ y.drop x.length, bodyEvents lg g 0 x⟩ := by
  have h := forLoop_start lib lg g size_m size_n x [] y hy (by omega) hmax hok
  rw [List.append_nil] at h
  rw [h]
  obtain ⟨f, hf⟩ : ∃ f, loopFuel - x.length = f + 1 :=
    ⟨loopFuel - x.length - 1, by unfold loopFuel; omega⟩
  have hlt : ¬ (toSize (x.length : Int) < mulSize size_m size_n) := by
    rw [toSize_natCast (by have := mulSize_lt size_m size_n; omega)]
    omega
  rw [hf, forLoop]
  simp [hlt, Result.after]

/-- The loop stops at the first element on which `inverse` throws. -/
theorem forLoop_thrown {V L : Type} (lib : LogicleClass V L) (lg : L) (g : V → V)
    (size_m size_n : Nat) (xd xr y : List V) (v : V) (str : String)
    (hN : xd.length < mulSize size_m size_n) (hy : xd.length ≤ y.length)
    (hmax : xd.length ≤ 2147483647) (hok : ∀ u ∈ xd, lib.inverse lg u = .ok (g u))
    (hv : lib.inverse lg v = .error str) :
    forLoop lib lg (xd ++ v :: xr) size_m size_n loopFuel 0 y
      = ⟨.thrown str, xd.map g ++ y.drop xd.length,
          bodyEvents lg g 0 xd ++ [.inverse lg xd.length v]⟩ := by
  rw [forLoop_start lib lg g size_m size_n xd (v :: xr) y hy (by omega) hmax hok]
  obtain ⟨f, hf⟩ : ∃ f, loopFuel - xd.length = f + 1 :=
    ⟨loopFuel - xd.length - 1, by unfold loopFuel; omega⟩
  have hlt : toSize (xd.length : Int) < mulSize size_m size_n := by
    rw [toSize_natCast (by have := mulSize_lt size_m size_n; omega)]
    exact hN
  have hidx : index (xd ++ v :: xr) (xd.length : Int) = some v := by
    rw [index_natCast, List.getElem?_append_right (le_refl _)]; simp
  rw [hf, forLoop]
  simp [hlt, hidx, hv, Result.after]

/-- The loop reaches the increment at `i = INT_MAX` when the bound exceeds `INT_MAX` and
`inverse` returns on the elements up to there. -/
theorem forLoop_intOverflow {V L : Type} (lib : LogicleClass V L) (lg : L) (g : V → V)
    (size_m size_n : Nat) (xd xr y : List V) (v : V)
    (hxd : xd.length = 2147483647)
    (hN : 2147483647 < mulSize size_m size_n) (hy : 2147483647 < y.length)
    (hok : ∀ u ∈ xd, lib.inverse lg u = .ok (g u)) (hv : lib.inverse lg v = .ok (g v)) :
    forLoop lib lg (xd ++ v :: xr) size_m size_n loopFuel 0 y
      = ⟨.intOverflow, xd.map g ++ g v :: y.drop 2147483648,
          bodyEvents lg g 0 xd ++ [.inverse lg INT_MAX v, .assign INT_MAX (g v)]⟩ := by
  rw [forLoop_start lib lg g size_m size_n xd (v :: xr) y (by omega) (by omega) (by omega) hok]
  have hf : loopFuel - xd.length = 0 + 1 := by unfold loopFuel; omega
  have hlt : toSize (xd.length : Int) < mulSize size_m size_n := by
    rw [toSize_natCast (by have := mulSize_lt size_m size_n; omega)]
    omega
  have hidx : index (xd ++ v :: xr) (xd.length : Int) = some v := by
    rw [index_natCast, List.getElem?_append_right (le_refl _)]; simp
  have hi : (xd.length : Int) = INT_MAX := by unfold INT_MAX; omega
  obtain ⟨r, yr, hyr⟩ : ∃ r yr, y.drop xd.length = r :: yr := by
    cases h : y.drop xd.length with
    | nil => simp at h; omega
    | cons r yr => exact ⟨r, yr, rfl⟩
  have hyr2 : y.drop 2147483648 = yr := by
    have := congrArg (List.drop 1) hyr
    rw [List.drop_drop, hxd] at this
    simpa using this
  have hst : store (xd.map g ++ r :: yr) (xd.length : Int) (g v)
      = some (xd.map g ++ g v :: yr) := by
    rw [store_natCast _ _ _ (by simp)]
    simp
  rw [hf, forLoop, hyr]
  rw [hi] at hlt hidx hst
  simp only [hi, hlt, if_true, hidx, hv, hst, Result.after, hyr2]

/-- Every call made by the loop is a call of the loop body, the output buffer keeps its
length, and the loop never enters the host error channel by itself. -/
theorem forLoop_shape {V L : Type} (lib : LogicleClass V L) (lg : L) (x : List V)
    (size_m size_n : Nat) :
    ∀ (fuel : Nat) (i : Int) (y : List V),
      (forLoop lib lg x size_m size_n fuel i y).y.length = y.length
      ∧ (forLoop lib lg x size_m size_n fuel i y).exit.ofLoop
      ∧ ∀ e ∈ (forLoop lib lg x size_m size_n fuel i y).trace, e.ofBody lg x y.length := by
  intro fuel
  induction fuel with
  | zero => intro i y; simp [forLoop, Exit.ofLoop]
  | succ fuel ih =>
    intro i y
    rw [forLoop]
    split
    · split
      · simp [Exit.ofLoop]
      · rename_i xi hxi
        split
        · simp [Exit.ofLoop, Event.ofBody, hxi]
        · rename_i v hv
          split
          · simp [Exit.ofLoop, Event.ofBody, hxi]
          · rename_i y1 hy1
            have hst : (0 ≤ i ∧ i.toNat < y.length) ∧ y1 = y.set i.toNat v := by
              unfold store at hy1
              split at hy1
              · rename_i h; exact ⟨h, by simpa using hy1.symm⟩
              · simp at hy1
            have hlen : y1.length = y.length := by rw [hst.2]; simp
            split
            · simp [Exit.ofLoop, Event.ofBody, hxi, hlen, hst.1]
            · obtain ⟨h1, h2, h3⟩ := ih (i + 1) y1
              refine ⟨by simpa [Result.after, hlen] using h1, by simpa [Result.after] using h2, ?_⟩
              intro e he
              simp only [Result.after, List.mem_append, List.mem_cons, List.mem_singleton,
                List.not_mem_nil, or_false] at he
              rcases he with (rfl | rfl) | he
              · exact ⟨rfl, hxi⟩
              · exact hst.1
              · simpa [hlen] using h3 e he
    · simp [Exit.ofLoop]

/-- With buffers of `size_m*size_n` elements the loop makes no access outside them and ends
within its iteration budget. -/
theorem forLoop_safe {V L : Type} (lib : LogicleClass V L) (lg : L) (x : List V)
    (size_m size_n : Nat) (hx : x.length = mulSize size_m size_n) :
    ∀ (fuel k : Nat) (y : List V), k ≤ 2147483647 → 2147483648 ≤ fuel + k →
      y.length = mulSize size_m size_n →
      (forLoop lib lg x size_m size_n fuel (k : Int) y).exit ≠ .outOfBounds
      ∧ (forLoop lib lg x size_m size_n fuel (k : Int) y).exit ≠ .fuelExhausted := by
  intro fuel
  induction fuel with
  | zero => intro k y hk hf; omega
  | succ fuel ih =>
    intro k y hk hf hy
    rw [forLoop]
    by_cases hlt : toSize (k : Int) < mulSize size_m size_n
    · have hkN : k < mulSize size_m size_n := by
        rwa [toSize_natCast (by unfold SIZE_MOD; omega)] at hlt
      obtain ⟨xk, hxk⟩ : ∃ xk, x[k]? = some xk :=
        ⟨x.get ⟨k, by omega⟩, List.getElem?_eq_getElem (by omega)⟩
      have hidx : index x (k : Int) = some xk := by rw [index_natCast, hxk]
      simp only [hlt, if_true, hidx]
      cases hinv : lib.inverse lg xk with
      | error str => simp
      | ok v =>
        have hst := store_natCast y k v (by omega)
        simp only [hst]
        by_cases hi : (k : Int) = INT_MAX
        · simp [hi]
        · simp only [hi, if_false]
          have := ih (k + 1) (y.set k v) (by unfold INT_MAX at hi; omega) (by omega)
            (by simpa using hy)
          simpa [Result.after] using this
    · simp [hlt]

/-- The loop ends within its iteration budget, whatever the buffers are. -/
theorem forLoop_fuel {V L : Type} (lib : LogicleClass V L) (lg : L) (x : List V)
    (size_m size_n : Nat) :
    ∀ (fuel : Nat) (i : Int) (y : List V), i ≤ INT_MAX → INT_MAX + 1 - i ≤ fuel →
      (forLoop lib lg x size_m size_n fuel i y).exit ≠ .fuelExhausted := by
  intro fuel
  induction fuel with
  | zero => intro i y hi hf; simp at hf; omega
  | succ fuel ih =>
    intro i y hi hf
    rw [forLoop]
    split
    · split
      · simp
      · split
        · simp
        · split
          · simp
          · split
            · simp
            · rename_i hne
              rw [exit_after]
              exact ih (i + 1) _ (by omega) (by push_cast at hf; omega)
    · simp

/-- With a bound within the `int` range the counter never reaches the overflowing
increment. -/
theorem forLoop_no_overflow {V L : Type} (lib : LogicleClass V L) (lg : L) (x : List V)
    (size_m size_n : Nat) (hN : mulSize size_m size_n ≤ 2147483647) :
    ∀ (fuel : Nat) (k : Nat) (y : List V),
      (forLoop lib lg x size_m size_n fuel (k : Int) y).exit ≠ .intOverflow := by
  intro fuel
  induction fuel with
  | zero => intro k y; simp [forLoop]
  | succ fuel ih =>
    intro k y
    rw [forLoop]
    split
    · rename_i hlt
      split
      · simp
      · split
        · simp
        · split
          · simp
          · split
            · rename_i hi
              exfalso
              have hk : k = 2147483647 := by unfold INT_MAX at hi; omega
              rw [toSize_natCast (by unfold SIZE_MOD; omega)] at hlt
              omega
            · rw [exit_after]
              exact_mod_cast ih (k + 1) _
    · simp

/-- A list either satisfies `P` everywhere or splits at its first element that does not. -/
theorem forall_or_first_not {V : Type} (P : V → Prop) (xs : List V) :
    (∀ v ∈ xs, P v)
    ∨ ∃ xd v xr, xs = xd ++ v :: xr ∧ (∀ u ∈ xd, P u) ∧ ¬ P v := by
  induction xs with
  | nil => exact Or.inl (by simp)
  | cons a as ih =>
    by_cases ha : P a
    · rcases ih with h | ⟨xd, v, xr, rfl, hxd, hv⟩
      · exact Or.inl (by simpa [ha] using h)
      · exact Or.inr ⟨a :: xd, v, xr, rfl, by simpa [ha] using hxd, hv⟩
    · exact Or.inr ⟨[], a, as, rfl, by simp, ha⟩

theorem inverse_eq_inverseOr {V L : Type} (lib : LogicleClass V L) (lg : L) (v u : V)
    (h : lib.inverse lg v = .ok u) : lib.inverse lg v = .ok (inverseOr lib lg v) := by
  simp [inverseOr, h]

theorem inverse_error_of_not_ok {V L : Type} (lib : LogicleClass V L) (lg : L) (v : V)
    (h : ¬ ∃ u, lib.inverse lg v = .ok u) : ∃ str, lib.inverse lg v = .error str := by
  cases hv : lib.inverse lg v with
  | error str => exact ⟨str, rfl⟩
  | ok u => exact absurd ⟨u, hv⟩ h

/-- The complete behaviour of the loop on buffers of `size_m*size_n` elements: it runs to
completion, or stops at the first element on which `inverse` throws, or reaches the
increment at `INT_MAX`. -/
theorem forLoop_total {V L : Type} (lib : LogicleClass V L) (lg : L)
    (size_m size_n : Nat) (x y : List V)
    (hx : x.length = mulSize size_m size_n) (hy : x.length ≤ y.length) :
    ((∀ v ∈ x, lib.inverse lg v = .ok (inverseOr lib lg v)) ∧ x.length ≤ 2147483647
      ∧ forLoop lib lg x size_m size_n loopFuel 0 y
        = ⟨.returned, x.map (inverseOr lib lg) ++ y.drop x.length,
            bodyEvents lg (inverseOr lib lg) 0 x⟩)
    ∨ (∃ xd v xr str, x = xd ++ v :: xr
      ∧ (∀ u ∈ xd, lib.inverse lg u = .ok (inverseOr lib lg u))
      ∧ lib.inverse lg v = .error str ∧ xd.length ≤ 2147483647
      ∧ forLoop lib lg x size_m size_n loopFuel 0 y
        = ⟨.thrown str, xd.map (inverseOr lib lg) ++ y.drop xd.length,
            bodyEvents lg (inverseOr lib lg) 0 xd ++ [.inverse lg xd.length v]⟩)
    ∨ (∃ xd v xr, x = xd ++ v :: xr ∧ xd.length = 2147483647
      ∧ (∀ u ∈ xd ++ [v], lib.inverse lg u = .ok (inverseOr lib lg u))
      ∧ forLoop lib lg x size_m size_n loopFuel 0 y
        = ⟨.intOverflow,
            xd.map (inverseOr lib lg) ++ inverseOr lib lg v :: y.drop 2147483648,
            bodyEvents lg (inverseOr lib lg) 0 xd
              ++ [.inverse lg INT_MAX v, .assign INT_MAX (inverseOr lib lg v)]⟩) := by
  rcases forall_or_first_not (fun v => ∃ u, lib.inverse lg v = .ok u) (x.take 2147483648) with
    hall | ⟨xd, v, xr, hsplit, hxd, hv⟩
  · by_cases hlen : x.length ≤ 2147483647
    · left
      rw [List.take_of_length_le (by omega)] at hall
      have hok : ∀ v ∈ x, lib.inverse lg v = .ok (inverseOr lib lg v) := fun v hv => by
        obtain ⟨u, hu⟩ := hall v hv
        exact inverse_eq_inverseOr lib lg v u hu
      exact ⟨hok, hlen, forLoop_returned lib lg _ size_m size_n x y hx hy hlen hok⟩
    · right; right
      have hlt : 2147483647 < x.length := by omega
      obtain ⟨v, hv, h1⟩ : ∃ v, x[2147483647]? = some v
          ∧ x.drop 2147483647 = v :: x.drop 2147483648 :=
        ⟨x[2147483647], List.getElem?_eq_getElem hlt, List.drop_eq_getElem_cons hlt⟩
      have hsplit : x = x.take 2147483647 ++ v :: x.drop 2147483648 := by
        rw [← h1, List.take_append_drop]
      have hlen2 : (x.take 2147483647).length = 2147483647 := by
        rw [List.length_take]; omega
      have hmem : ∀ u ∈ x.take 2147483647 ++ [v], u ∈ x.take 2147483648 := by
        intro u hu
        have h2 : x.take 2147483648 = x.take 2147483647 ++ [v] := by
          have : (2147483648 : Nat) = 2147483647 + 1 := rfl
          rw [this, List.take_succ, hv]
          rfl
        rw [h2]; exact hu
      have hok : ∀ u ∈ x.take 2147483647 ++ [v],
          lib.inverse lg u = .ok (inverseOr lib lg u) := fun u hu => by
        obtain ⟨w, hw⟩ := hall u (hmem u hu)
        exact inverse_eq_inverseOr lib lg u w hw
      refine ⟨x.take 2147483647, v, x.drop 2147483648, hsplit, hlen2, hok, ?_⟩
      have := forLoop_intOverflow lib lg (inverseOr lib lg) size_m size_n (x.take 2147483647)
        (x.drop 2147483648) y v hlen2 (by omega) (by omega)
        (fun u hu => hok u (by simp [hu])) (hok v (by simp))
      rw [← hsplit] at this
      exact this
  · right; left
    obtain ⟨str, hstr⟩ := inverse_error_of_not_ok lib lg v hv
    have hx2 : x = xd ++ v :: (xr ++ x.drop 2147483648) := by
      have := List.take_append_drop 2147483648 x
      rw [hsplit] at this
      simpa using this.symm
    have hlen : xd.length < 2147483648 ∧ xd.length < x.length := by
      have h1 := congrArg List.length hsplit
      have h2 := congrArg List.length hx2
      simp only [List.length_take, List.length_append, List.length_cons] at h1 h2
      omega
    have hok : ∀ u ∈ xd, lib.inverse lg u = .ok (inverseOr lib lg u) := fun u hu => by
      obtain ⟨w, hw⟩ := hxd u hu
      exact inverse_eq_inverseOr lib lg u w hw
    refine ⟨xd, v, xr ++ x.drop 2147483648, str, hx2, hok, hstr, by omega, ?_⟩
    have := forLoop_thrown lib lg (inverseOr lib lg) size_m size_n xd
      (xr ++ x.drop 2147483648) y v str (by omega) (by omega) (by omega) hok hstr
    rw [← hx2] at this
    exact this

/-! ## `logicle_here` and `mexFunction` -/

theorem withLogicle_returned {V L : Type} (lib : LogicleClass V L) (lg : L) (y x : List V)
    (size_m size_n : Nat) (y1 : List V) (tr : List (Event V L))
    (h : forLoop lib lg x size_m size_n loopFuel 0 y = ⟨.returned, y1, tr⟩) :
    withLogicle lib lg y x size_m size_n = ⟨.returned, y1, tr ++ [.delete lg]⟩ := by
  simp [withLogicle, h]

theorem withLogicle_thrown {V L : Type} (lib : LogicleClass V L) (lg : L) (y x : List V)
    (size_m size_n : Nat) (y1 : List V) (tr : List (Event V L)) (str : String)
    (h : forLoop lib lg x size_m size_n loopFuel 0 y = ⟨.thrown str, y1, tr⟩) :
    withLogicle lib lg y x size_m size_n = ⟨.errMsgTxt str, y1, tr ++ [.mexErrMsgTxt str]⟩ := by
  simp [withLogicle, h]

theorem withLogicle_intOverflow {V L : Type} (lib : LogicleClass V L) (lg : L) (y x : List V)
    (size_m size_n : Nat) (y1 : List V) (tr : List (Event V L))
    (h : forLoop lib lg x size_m size_n loopFuel 0 y = ⟨.intOverflow, y1, tr⟩) :
    withLogicle lib lg y x size_m size_n = ⟨.intOverflow, y1, tr⟩ := by
  simp [withLogicle, h]

theorem withLogicle_exit_ne_errMsgIdAndTxt {V L : Type} (lib : LogicleClass V L) (lg : L)
    (y x : List V) (size_m size_n : Nat) (id msg : String) :
    (withLogicle lib lg y x size_m size_n).exit ≠ .errMsgIdAndTxt id msg := by
  have h := (forLoop_shape lib lg x size_m size_n loopFuel 0 y).2.1
  unfold withLogicle
  generalize forLoop lib lg x size_m size_n loopFuel 0 y = r at h
  obtain ⟨e, y1, tr⟩ := r
  cases e <;> simp_all [Exit.ofLoop]

theorem logicle_here_eq {V L : Type} (lib : LogicleClass V L) (y x T W M A : List V)
    (size_m size_n : Nat) (t w m a : V)
    (hT : T[0]? = some t) (hW : W[0]? = some w) (hM : M[0]? = some m) (hA : A[0]? = some a) :
    logicle_here lib y x T W M A size_m size_n
      = match lib.construct t w m a with
        | .error str => ⟨.errMsgTxt str, y, [.newLogicle t w m a, .mexErrMsgTxt str]⟩
        | .ok lg => (withLogicle lib lg y x size_m size_n).after [.newLogicle t w m a] := by
  simp [logicle_here, hT, hW, hM, hA]

theorem logicle_here_exit_ne_errMsgIdAndTxt {V L : Type} (lib : LogicleClass V L)
    (y x T W M A : List V) (size_m size_n : Nat) (id msg : String) :
    (logicle_here lib y x T W M A size_m size_n).exit ≠ .errMsgIdAndTxt id msg := by
  unfold logicle_here
  split
  · split
    · simp
    · simpa [Result.after] using withLogicle_exit_ne_errMsgIdAndTxt lib _ y x size_m size_n id msg
  · simp

theorem mexFunction_eq {V L : Type} [Zero V] (lib : LogicleClass V L) (nlhs : Int)
    (x_in T_in W_in M_in A_in : mxArray V) (h : nlhs ≤ 1) :
    mexFunction lib nlhs [x_in, T_in, W_in, M_in, A_in]
      = (logicle_here lib (List.replicate (x_in.m * x_in.n) 0) x_in.pr T_in.pr W_in.pr M_in.pr
          A_in.pr x_in.m x_in.n).after [.mxCreateDoubleMatrix x_in.m x_in.n] := by
  simp [mexFunction, nrhs, not_lt.mpr h]

/-- The three ways `withLogicle` continues after the loop. -/
theorem withLogicle_cases {V L : Type} (lib : LogicleClass V L) (lg : L) (y x : List V)
    (size_m size_n : Nat) :
    ((forLoop lib lg x size_m size_n loopFuel 0 y).exit = .returned
      ∧ withLogicle lib lg y x size_m size_n
        = ⟨.returned, (forLoop lib lg x size_m size_n loopFuel 0 y).y,
            (forLoop lib lg x size_m size_n loopFuel 0 y).trace ++ [.delete lg]⟩)
    ∨ (∃ str, (forLoop lib lg x size_m size_n loopFuel 0 y).exit = .thrown str
      ∧ withLogicle lib lg y x size_m size_n
        = ⟨.errMsgTxt str, (forLoop lib lg x size_m size_n loopFuel 0 y).y,
            (forLoop lib lg x size_m size_n loopFuel 0 y).trace ++ [.mexErrMsgTxt str]⟩)
    ∨ ((forLoop lib lg x size_m size_n loopFuel 0 y).exit ≠ .returned
      ∧ (∀ str, (forLoop lib lg x size_m size_n loopFuel 0 y).exit ≠ .thrown str)
      ∧ withLogicle lib lg y x size_m size_n = forLoop lib lg x size_m size_n loopFuel 0 y) := by
  unfold withLogicle
  generalize forLoop lib lg x size_m size_n loopFuel 0 y = r
  obtain ⟨e, y1, tr⟩ := r
  cases e <;> simp

/-- The three ways `logicle_here` starts: a parameter array without a first element, a
constructor that throws, a constructor that returns. -/
theorem logicle_here_cases {V L : Type} (lib : LogicleClass V L) (y x T W M A : List V)
    (size_m size_n : Nat) :
    logicle_here lib y x T W M A size_m size_n = ⟨.outOfBounds, y, []⟩
    ∨ (∃ t w m a str, lib.construct t w m a = .error str
      ∧ logicle_here lib y x T W M A size_m size_n
        = ⟨.errMsgTxt str, y, [.newLogicle t w m a, .mexErrMsgTxt str]⟩)
    ∨ (∃ t w m a lg, lib.construct t w m a = .ok lg
      ∧ logicle_here lib y x T W M A size_m size_n
        = (withLogicle lib lg y x size_m size_n).after [.newLogicle t w m a]) := by
  unfold logicle_here
  split
  · rename_i t w m a _ _ _ _
    cases hc : lib.construct t w m a with
    | error str => exact Or.inr (Or.inl ⟨t, w, m, a, str, hc, rfl⟩)
    | ok lg => exact Or.inr (Or.inr ⟨t, w, m, a, lg, hc, rfl⟩)
  · exact Or.inl rfl

/-- The complete behaviour of `withLogicle` on buffers of `size_m*size_n` elements. -/
theorem withLogicle_total {V L : Type} (lib : LogicleClass V L) (lg : L)
    (size_m size_n : Nat) (x y : List V)
    (hx : x.length = mulSize size_m size_n) (hy : x.length ≤ y.length) :
    ((∀ v ∈ x, lib.inverse lg v = .ok (inverseOr lib lg v)) ∧ x.length ≤ 2147483647
      ∧ withLogicle lib lg y x size_m size_n
        = ⟨.returned, x.map (inverseOr lib lg) ++ y.drop x.length,
            bodyEvents lg (inverseOr lib lg) 0 x ++ [.delete lg]⟩)
    ∨ (∃ xd v xr str, x = xd ++ v :: xr
      ∧ (∀ u ∈ xd, lib.inverse lg u = .ok (inverseOr lib lg u))
      ∧ lib.inverse lg v = .error str ∧ xd.length ≤ 2147483647
      ∧ withLogicle lib lg y x size_m size_n
        = ⟨.errMsgTxt str, xd.map (inverseOr lib lg) ++ y.drop xd.length,
            bodyEvents lg (inverseOr lib lg) 0 xd
              ++ [.inverse lg xd.length v, .mexErrMsgTxt str]⟩)
    ∨ (∃ xd v xr, x = xd ++ v :: xr ∧ xd.length = 2147483647
      ∧ (∀ u ∈ xd ++ [v], lib.inverse lg u = .ok (inverseOr lib lg u))
      ∧ withLogicle lib lg y x size_m size_n
        = ⟨.intOverflow,
            xd.map (inverseOr lib lg) ++ inverseOr lib lg v :: y.drop 2147483648,
            bodyEvents lg (inverseOr lib lg) 0 xd
              ++ [.inverse lg INT_MAX v, .assign INT_MAX (inverseOr lib lg v)]⟩) := by
  rcases forLoop_total lib lg size_m size_n x y hx hy with
    ⟨hok, hlen, h⟩ | ⟨xd, v, xr, str, hsplit, hok, hv, hlen, h⟩ | ⟨xd, v, xr, hsplit, hlen, hok, h⟩
  · exact Or.inl ⟨hok, hlen, withLogicle_returned lib lg y x size_m size_n _ _ h⟩
  · refine Or.inr (Or.inl ⟨xd, v, xr, str, hsplit, hok, hv, hlen, ?_⟩)
    rw [withLogicle_thrown lib lg y x size_m size_n _ _ str h]
    simp
  · exact Or.inr (Or.inr ⟨xd, v, xr, hsplit, hlen, hok,
      withLogicle_intOverflow lib lg y x size_m size_n _ _ h⟩)

/-! ## Indices of the loop body -/

theorem bodyIndices_append {V L : Type} (e1 e2 : List (Event V L)) :
    bodyIndices (e1 ++ e2) = bodyIndices e1 ++ bodyIndices e2 := by
  induction e1 with
  | nil => rfl
  | cons e es ih => cases e <;> simp [bodyIndices, ih]

theorem bodyIndices_bodyEvents {V L : Type} (lg : L) (g : V → V) (vs : List V) :
    ∀ k : Nat, bodyIndices (bodyEvents lg g k vs : List (Event V L))
      = (List.range' k vs.length).map (fun j : Nat => (j : Int)) := by
  induction vs with
  | nil => intro k; rfl
  | cons v vs ih => intro k; simp [bodyEvents, bodyIndices, ih, List.range']

theorem ofBody_inBounds {V L : Type} (lg : L) (x : List V) (ny : Nat) (e : Event V L)
    (h : e.ofBody lg x ny) : e.inBounds x ny := by
  cases e with
  | inverse lg1 i xi =>
    obtain ⟨-, hi⟩ := h
    unfold index at hi
    split at hi
    · rename_i h0
      refine ⟨h0, ?_, hi⟩
      by_contra hlt
      rw [List.getElem?_eq_none (by omega)] at hi
      cases hi
    · cases hi
  | assign i v => exact h
  | mxCreateDoubleMatrix _ _ => trivial
  | newLogicle _ _ _ _ => trivial
  | delete _ => trivial
  | mexErrMsgTxt _ => trivial
  | mexErrMsgIdAndTxt _ _ => trivial

/-- The iteration budget is never the reason a run of `logicle_here` ends: the loop always
ends by itself, at the latest at the increment at `INT_MAX`. -/
theorem logicle_here_exit_ne_fuelExhausted {V L : Type} (lib : LogicleClass V L)
    (y x T W M A : List V) (size_m size_n : Nat) :
    (logicle_here lib y x T W M A size_m size_n).exit ≠ .fuelExhausted := by
  rcases logicle_here_cases lib y x T W M A size_m size_n with
    h0 | ⟨t, w, m, a, str, -, h0⟩ | ⟨t, w, m, a, lg, -, h0⟩
  · rw [h0]; simp
  · rw [h0]; simp
  · rw [h0, exit_after]
    have hf := forLoop_fuel lib lg x size_m size_n loopFuel 0 y (by decide) (by decide)
    rcases withLogicle_cases lib lg y x size_m size_n with
      ⟨-, hw⟩ | ⟨str, -, hw⟩ | ⟨-, -, hw⟩
    · rw [hw]; simp
    · rw [hw]; simp
    · rw [hw]; exact hf

/-- The iteration budget is never the reason a call of `mexFunction` ends. -/
theorem mexFunction_exit_ne_fuelExhausted {V L : Type} [Zero V] (lib : LogicleClass V L)
    (nlhs : Int) (prhs : List (mxArray V)) :
    (mexFunction lib nlhs prhs).exit ≠ .fuelExhausted := by
  unfold mexFunction
  split
  · simp
  · split
    · simp
    · split
      · rw [exit_after]
        exact logicle_here_exit_ne_fuelExhausted lib _ _ _ _ _ _ _ _
      · simp

/-! ## Argument validation -/

/-- C2: `mexFunction` reports a usage error if and only if `nrhs != 5` or `nlhs > 1`.  When it
does, the usage error call is the only call made: no matrix is created, no transform is
constructed and the inverse is evaluated on no element.  When `nrhs = 5` and `nlhs <= 1` no
usage error is reported and the computation proceeds: the output matrix is created and
`logicle_here` runs on the five arguments. -/
theorem mexFunction_usage_error_iff {V L : Type} [Zero V] (lib : LogicleClass V L) (nlhs : Int)
    (prhs : List (mxArray V)) :
    ((∃ id msg, (mexFunction lib nlhs prhs).exit = .errMsgIdAndTxt id msg)
        ↔ (nrhs prhs ≠ 5 ∨ nlhs > 1))
    ∧ ((nrhs prhs ≠ 5 ∨ nlhs > 1) →
        ∃ id msg, mexFunction lib nlhs prhs
          = ⟨.errMsgIdAndTxt id msg, [], [.mexErrMsgIdAndTxt id msg]⟩)
    ∧ ((nrhs prhs = 5 ∧ nlhs ≤ 1) →
        ∃ x_in T_in W_in M_in A_in, prhs = [x_in, T_in, W_in, M_in, A_in]
          ∧ mexFunction lib nlhs prhs
            = (logicle_here lib (List.replicate (x_in.m * x_in.n) 0) x_in.pr T_in.pr W_in.pr
                M_in.pr A_in.pr x_in.m x_in.n).after [.mxCreateDoubleMatrix x_in.m x_in.n]) := by
  have hbad : (nrhs prhs ≠ 5 ∨ nlhs > 1) →
      ∃ id msg, mexFunction lib nlhs prhs
        = ⟨.errMsgIdAndTxt id msg, [], [.mexErrMsgIdAndTxt id msg]⟩ := by
    intro h
    by_cases h5 : nrhs prhs ≠ 5
    · exact ⟨"MATLAB:c_test:invalidNumInputs", "Five input arguments required.",
        by simp [mexFunction, h5]⟩
    · have h1 : nlhs > 1 := h.resolve_left h5
      exact ⟨"MATLAB:c_test:maxlhs", "Too many output arguments.",
        by simp [mexFunction, not_not.mp h5, h1]⟩
  have hgood : (nrhs prhs = 5 ∧ nlhs ≤ 1) →
      ∃ x_in T_in W_in M_in A_in, prhs = [x_in, T_in, W_in, M_in, A_in]
        ∧ mexFunction lib nlhs prhs
          = (logicle_here lib (List.replicate (x_in.m * x_in.n) 0) x_in.pr T_in.pr W_in.pr
              M_in.pr A_in.pr x_in.m x_in.n).after [.mxCreateDoubleMatrix x_in.m x_in.n] := by
    rintro ⟨h5, h1⟩
    rcases prhs with _ | ⟨a, _ | ⟨b, _ | ⟨c, _ | ⟨d, _ | ⟨e, _ | ⟨f, r⟩⟩⟩⟩⟩⟩
    all_goals simp [nrhs] at h5
    · exact ⟨a, b, c, d, e, rfl, mexFunction_eq lib nlhs a b c d e h1⟩
    · omega
  refine ⟨⟨?_, ?_⟩, hbad, hgood⟩
  · rintro ⟨id, msg, h⟩
    by_contra hn
    have hn2 : nrhs prhs = 5 ∧ nlhs ≤ 1 := by
      constructor
      · by_contra h5; exact hn (Or.inl h5)
      · by_contra h1; exact hn (Or.inr (not_le.mp h1))
    obtain ⟨x_in, T_in, W_in, M_in, A_in, -, he⟩ := hgood hn2
    rw [he] at h
    exact logicle_here_exit_ne_errMsgIdAndTxt lib _ _ _ _ _ _ _ _ id msg
      (by simpa [Result.after] using h)
  · intro h
    obtain ⟨id, msg, he⟩ := hbad h
    exact ⟨id, msg, by rw [he]⟩

/-- C2 at concrete calls: four inputs, and five inputs with two requested outputs. -/
theorem mexFunction_usage_error_iff_witness :
    (∃ id msg, (mexFunction sampleLogicle 1
        [⟨1, 1, [0]⟩, ⟨1, 1, [10]⟩, ⟨1, 1, [1]⟩, ⟨1, 1, [5]⟩]).exit = .errMsgIdAndTxt id msg)
    ∧ (∃ id msg, (mexFunction sampleLogicle 2
        [⟨1, 1, [0]⟩, ⟨1, 1, [10]⟩, ⟨1, 1, [1]⟩, ⟨1, 1, [5]⟩, ⟨1, 1, [0]⟩]).exit
          = .errMsgIdAndTxt id msg) :=
  ⟨(mexFunction_usage_error_iff sampleLogicle 1 _).1.2 (Or.inl (by decide)),
   (mexFunction_usage_error_iff sampleLogicle 2 _).1.2 (Or.inr (by decide))⟩

/-! ## Failure of the constructor -/

/-- C3: when construction of the transform from `T[0], W[0], M[0], A[0]` fails with message
`s`, `logicle_here` fails with that same message: it enters the host error channel through
`mexErrMsgTxt(s)`, the constructor call and that error call are the only calls made (the
inverse is evaluated on no element of `x`), the output buffer is left as it was, and the run
is not a successful return. -/
theorem logicle_here_construct_error {V L : Type} (lib : LogicleClass V L)
    (y x T W M A : List V) (size_m size_n : Nat) (t w m a : V) (s : String)
    (hT : T[0]? = some t) (hW : W[0]? = some w) (hM : M[0]? = some m) (hA : A[0]? = some a)
    (hc : lib.construct t w m a = .error s) :
    logicle_here lib y x T W M A size_m size_n
        = ⟨.errMsgTxt s, y, [.newLogicle t w m a, .mexErrMsgTxt s]⟩
    ∧ (∀ lg i v, Event.inverse lg i v ∉ (logicle_here lib y x T W M A size_m size_n).trace)
    ∧ (logicle_here lib y x T W M A size_m size_n).exit ≠ .returned := by
  have h := logicle_here_eq lib y x T W M A size_m size_n t w m a hT hW hM hA
  rw [hc] at h
  simp only at h
  rw [h]
  simp

/-- C3 at a concrete call: `T = 0` is rejected by the constructor. -/
theorem logicle_here_construct_error_witness :
    logicle_here sampleLogicle [0, 0] [1, 2] [0] [1] [5] [0] 2 1
        = ⟨.errMsgTxt "IllegalParameter: T is not positive", [0, 0],
            [.newLogicle 0 1 5 0, .mexErrMsgTxt "IllegalParameter: T is not positive"]⟩
    ∧ (∀ lg i v, Event.inverse lg i v
        ∉ (logicle_here sampleLogicle [0, 0] [1, 2] [0] [1] [5] [0] 2 1).trace)
    ∧ (logicle_here sampleLogicle [0, 0] [1, 2] [0] [1] [5] [0] 2 1).exit ≠ .returned :=
  logicle_here_construct_error sampleLogicle [0, 0] [1, 2] [0] [1] [5] [0] 2 1 0 1 5 0
    "IllegalParameter: T is not positive" rfl rfl rfl rfl rfl

/-- A whole call that passes argument validation and whose constructor fails with `s`. -/
theorem mexFunction_construct_error {V L : Type} [Zero V] (lib : LogicleClass V L)
    (nlhs : Int) (x_in T_in W_in M_in A_in : mxArray V) (t w m a : V) (s : String)
    (h1 : nlhs ≤ 1)
    (hT : T_in.pr[0]? = some t) (hW : W_in.pr[0]? = some w) (hM : M_in.pr[0]? = some m)
    (hA : A_in.pr[0]? = some a) (hc : lib.construct t w m a = .error s) :
    mexFunction lib nlhs [x_in, T_in, W_in, M_in, A_in]
      = ⟨.errMsgTxt s, List.replicate (x_in.m * x_in.n) 0,
          [.mxCreateDoubleMatrix x_in.m x_in.n, .newLogicle t w m a, .mexErrMsgTxt s]⟩ := by
  rw [mexFunction_eq lib nlhs x_in T_in W_in M_in A_in h1,
    logicle_here_eq lib _ _ _ _ _ _ _ _ t w m a hT hW hM hA, hc]
  simp [Result.after]

/-! ## The parameter arrays -/

theorem logicle_here_congr_params {V L : Type} (lib : LogicleClass V L)
    (y x T1 W1 M1 A1 T2 W2 M2 A2 : List V) (size_m size_n : Nat)
    (hT : T1[0]? = T2[0]?) (hW : W1[0]? = W2[0]?) (hM : M1[0]? = M2[0]?)
    (hA : A1[0]? = A2[0]?) :
    logicle_here lib y x T1 W1 M1 A1 size_m size_n
      = logicle_here lib y x T2 W2 M2 A2 size_m size_n := by
  unfold logicle_here
  rw [hT, hW, hM, hA]

/-- C10: the result of a call (how it ends, the output and every call made) depends on the
parameter arrays only through their first elements: two calls with the same `nlhs` and the
same `x` whose parameter arrays agree at index 0 have the same result, whatever the
dimensions, lengths and later elements of those arrays are.  No check rejects a parameter
that is not a scalar. -/
theorem mexFunction_params_first_element {V L : Type} [Zero V] (lib : LogicleClass V L)
    (nlhs : Int) (x_in T1 W1 M1 A1 T2 W2 M2 A2 : mxArray V)
    (hT : T1.pr[0]? = T2.pr[0]?) (hW : W1.pr[0]? = W2.pr[0]?) (hM : M1.pr[0]? = M2.pr[0]?)
    (hA : A1.pr[0]? = A2.pr[0]?) :
    mexFunction lib nlhs [x_in, T1, W1, M1, A1] = mexFunction lib nlhs [x_in, T2, W2, M2, A2] := by
  by_cases h1 : nlhs ≤ 1
  · rw [mexFunction_eq lib nlhs x_in T1 W1 M1 A1 h1, mexFunction_eq lib nlhs x_in T2 W2 M2 A2 h1,
      logicle_here_congr_params lib _ _ T1.pr W1.pr M1.pr A1.pr T2.pr W2.pr M2.pr A2.pr _ _
        hT hW hM hA]
  · simp [mexFunction, nrhs, not_le.mp h1]

/-- C10 at a concrete call: a 2-by-2 matrix `T` and a 1-by-3 row `M` give the result of the
scalars `T = 10` and `M = 5`. -/
theorem mexFunction_params_first_element_witness :
    mexFunction sampleLogicle 1
        [⟨2, 1, [0, 1]⟩, ⟨2, 2, [10, 0, -3, 7]⟩, ⟨1, 1, [1]⟩, ⟨1, 3, [5, -1, 0]⟩, ⟨1, 1, [0]⟩]
      = mexFunction sampleLogicle 1
        [⟨2, 1, [0, 1]⟩, ⟨1, 1, [10]⟩, ⟨1, 1, [1]⟩, ⟨1, 1, [5]⟩, ⟨1, 1, [0]⟩] :=
  mexFunction_params_first_element sampleLogicle 1 ⟨2, 1, [0, 1]⟩ ⟨2, 2, [10, 0, -3, 7]⟩
    ⟨1, 1, [1]⟩ ⟨1, 3, [5, -1, 0]⟩ ⟨1, 1, [0]⟩ ⟨1, 1, [10]⟩ ⟨1, 1, [1]⟩ ⟨1, 1, [5]⟩ ⟨1, 1, [0]⟩
    rfl rfl rfl rfl

/-! ## The empty input -/

theorem forLoop_zero {V L : Type} (lib : LogicleClass V L) (lg : L) (x y : List V)
    (size_m size_n : Nat) (h : mulSize size_m size_n = 0) :
    forLoop lib lg x size_m size_n loopFuel 0 y = ⟨.returned, y, []⟩ := by
  have hf : loopFuel = 2147483647 + 1 := rfl
  rw [hf, forLoop, h]
  simp

/-- C5, amended: for every call with five inputs and at most one requested output whose
input has `m*n = 0` elements, and for all parameter values for which construction of the
transform succeeds, the output is the empty sequence and no error occurs: the call returns
after creating the matrix, constructing the transform and deleting it. -/
theorem mexFunction_empty_input {V L : Type} [Zero V] (lib : LogicleClass V L) (nlhs : Int)
    (x_in T_in W_in M_in A_in : mxArray V) (t w m a : V) (lg : L)
    (h1 : nlhs ≤ 1) (h0 : x_in.m * x_in.n = 0)
    (hT : T_in.pr[0]? = some t) (hW : W_in.pr[0]? = some w) (hM : M_in.pr[0]? = some m)
    (hA : A_in.pr[0]? = some a) (hc : lib.construct t w m a = .ok lg) :
    mexFunction lib nlhs [x_in, T_in, W_in, M_in, A_in]
      = ⟨.returned, [],
          [.mxCreateDoubleMatrix x_in.m x_in.n, .newLogicle t w m a, .delete lg]⟩ := by
  have hz : mulSize x_in.m x_in.n = 0 := by simp [mulSize, h0]
  rw [mexFunction_eq lib nlhs x_in T_in W_in M_in A_in h1,
    logicle_here_eq lib _ _ _ _ _ _ _ _ t w m a hT hW hM hA, hc]
  simp only
  rw [withLogicle_returned lib lg _ _ _ _ _ _ (forLoop_zero lib lg _ _ _ _ hz), h0]
  simp [Result.after]

/-- C5, amended, at a concrete call: a 0-by-3 input with valid parameters. -/
theorem mexFunction_empty_input_witness :
    mexFunction sampleLogicle 1
        [⟨0, 3, []⟩, ⟨1, 1, [10]⟩, ⟨1, 1, [1]⟩, ⟨1, 1, [5]⟩, ⟨1, 1, [0]⟩]
      = ⟨.returned, [],
          [.mxCreateDoubleMatrix 0 3, .newLogicle 10 1 5 0, .delete ⟨10, 1, 5, 0⟩]⟩ :=
  mexFunction_empty_input sampleLogicle 1 ⟨0, 3, []⟩ ⟨1, 1, [10]⟩ ⟨1, 1, [1]⟩ ⟨1, 1, [5]⟩
    ⟨1, 1, [0]⟩ 10 1 5 0 ⟨10, 1, 5, 0⟩ (by decide) rfl rfl rfl rfl rfl rfl

/-- C5 as stated fails: with an empty input, a call whose `T` is `0` ends in the host error
channel with the constructor's message, and a call that requests two outputs ends with a
usage error. -/
theorem mexFunction_empty_input_counterexample :
    (mexFunction sampleLogicle 1
        [⟨0, 0, []⟩, ⟨1, 1, [0]⟩, ⟨1, 1, [1]⟩, ⟨1, 1, [5]⟩, ⟨1, 1, [0]⟩]).exit
      = .errMsgTxt "IllegalParameter: T is not positive"
    ∧ (mexFunction sampleLogicle 2
        [⟨0, 0, []⟩, ⟨1, 1, [10]⟩, ⟨1, 1, [1]⟩, ⟨1, 1, [5]⟩, ⟨1, 1, [0]⟩]).exit
      = .errMsgIdAndTxt "MATLAB:c_test:maxlhs" "Too many output arguments." := by
  decide

/-! ## The error path and the transform instance -/

/-- Whenever `logicle_here` ends in the host error channel, no `delete` has been made. -/
theorem logicle_here_errMsgTxt_no_delete {V L : Type} (lib : LogicleClass V L)
    (y x T W M A : List V) (size_m size_n : Nat) (s : String)
    (h : (logicle_here lib y x T W M A size_m size_n).exit = .errMsgTxt s) (lg : L) :
    Event.delete lg ∉ (logicle_here lib y x T W M A size_m size_n).trace := by
  rcases logicle_here_cases lib y x T W M A size_m size_n with
    h0 | ⟨t, w, m, a, str, -, h0⟩ | ⟨t, w, m, a, lg1, -, h0⟩
  · rw [h0]; simp
  · rw [h0]; simp
  · rw [h0] at h ⊢
    obtain ⟨-, h2, h3⟩ := forLoop_shape lib lg1 x size_m size_n loopFuel 0 y
    have hno : Event.delete lg ∉ (forLoop lib lg1 x size_m size_n loopFuel 0 y).trace :=
      fun hm => by simpa [Event.ofBody] using h3 _ hm
    rcases withLogicle_cases lib lg1 y x size_m size_n with
      ⟨-, hw⟩ | ⟨str, -, hw⟩ | ⟨-, -, hw⟩
    · rw [hw] at h; simp [Result.after] at h
    · rw [hw]; simpa [Result.after] using hno
    · rw [hw]; simpa [Result.after] using hno

/-- C6 fails on the code.  In the call below construction succeeds and the inverse throws on
`x[1]`: the failure is reported through `mexErrMsgTxt` and the calls made contain no `delete`
of the transform instance, so the instance is still unreleased when the failure is reported. -/
theorem logicle_here_throw_leaks :
    logicle_here sampleLogicle [0, 0, 0] [0, 7, 4] [10] [1] [5] [0] 3 1
        = ⟨.errMsgTxt "IllegalArgument: scale value out of range", [-1, 0, 0],
            [.newLogicle 10 1 5 0, .inverse ⟨10, 1, 5, 0⟩ 0 0, .assign 0 (-1),
             .inverse ⟨10, 1, 5, 0⟩ 1 7,
             .mexErrMsgTxt "IllegalArgument: scale value out of range"]⟩
    ∧ sampleLogicle.construct 10 1 5 0 = .ok ⟨10, 1, 5, 0⟩
    ∧ Event.delete ⟨10, 1, 5, 0⟩
        ∉ (logicle_here sampleLogicle [0, 0, 0] [0, 7, 4] [10] [1] [5] [0] 3 1).trace :=
  ⟨by decide, rfl, by decide⟩

/-! ## Inputs beyond the range of the `int` counter -/

theorem mulSize_large : 2147483647 < mulSize 2147483649 1 := by
  unfold mulSize SIZE_MOD
  omega

theorem logicle_here_intOverflow {V L : Type} (lib : LogicleClass V L) (g : V → V)
    (y xd xr T W M A : List V) (v : V) (size_m size_n : Nat) (t w m a : V) (lg : L)
    (hT : T[0]? = some t) (hW : W[0]? = some w) (hM : M[0]? = some m) (hA : A[0]? = some a)
    (hc : lib.construct t w m a = .ok lg)
    (hxd : xd.length = 2147483647)
    (hN : 2147483647 < mulSize size_m size_n) (hy : 2147483647 < y.length)
    (hok : ∀ u ∈ xd, lib.inverse lg u = .ok (g u)) (hv : lib.inverse lg v = .ok (g v)) :
    logicle_here lib y (xd ++ v :: xr) T W M A size_m size_n
      = ⟨.intOverflow, xd.map g ++ g v :: y.drop 2147483648,
          .newLogicle t w m a
            :: (bodyEvents lg g 0 xd ++ [.inverse lg INT_MAX v, .assign INT_MAX (g v)])⟩ := by
  rw [logicle_here_eq lib _ _ _ _ _ _ _ _ t w m a hT hW hM hA, hc]
  simp only
  rw [withLogicle_intOverflow lib lg _ _ _ _ _ _
    (forLoop_intOverflow lib lg g size_m size_n xd xr y v hxd hN hy hok hv)]
  simp [Result.after]

/-- C1 fails on the code.  The input below has `2^31 + 1` elements, construction succeeds and
the inverse succeeds on every element (with value `-1`), yet `logicle_here` does not produce
the output: the `int` counter reaches `INT_MAX` and the run ends at the increment `i++`,
which overflows, with the output element at index `2^31` still holding its initial `0`.
The whole call through `mexFunction` ends the same way. -/
theorem logicle_here_large_input_overflows :
    (List.replicate 2147483647 (0 : Int) ++ [0, 0]).length = 2147483649
    ∧ sampleLogicle.construct 10 1 5 0 = .ok ⟨10, 1, 5, 0⟩
    ∧ (∀ v ∈ List.replicate 2147483647 (0 : Int) ++ [0, 0],
        sampleLogicle.inverse ⟨10, 1, 5, 0⟩ v = .ok (-1))
    ∧ (logicle_here sampleLogicle (List.replicate 2147483649 0)
        (List.replicate 2147483647 0 ++ [0, 0]) [10] [1] [5] [0] 2147483649 1).exit
      = .intOverflow
    ∧ (logicle_here sampleLogicle (List.replicate 2147483649 0)
        (List.replicate 2147483647 0 ++ [0, 0]) [10] [1] [5] [0] 2147483649 1).y[2147483648]?
      = some 0
    ∧ (mexFunction sampleLogicle 1
        [⟨2147483649, 1, List.replicate 2147483647 0 ++ [0, 0]⟩, ⟨1, 1, [10]⟩, ⟨1, 1, [1]⟩,
          ⟨1, 1, [5]⟩, ⟨1, 1, [0]⟩]).exit = .intOverflow := by
  have hok : ∀ u ∈ List.replicate 2147483647 (0 : Int),
      sampleLogicle.inverse ⟨10, 1, 5, 0⟩ u = .ok ((fun _ => (-1 : Int)) u) := by
    intro u hu
    rw [List.eq_of_mem_replicate hu]
    rfl
  have hrun := logicle_here_intOverflow sampleLogicle (fun _ => -1)
    (List.replicate 2147483649 0) (List.replicate 2147483647 0) [0] [10] [1] [5] [0] 0
    2147483649 1 10 1 5 0 ⟨10, 1, 5, 0⟩ rfl rfl rfl rfl rfl (List.length_replicate _ _)
    mulSize_large (by rw [List.length_replicate]; omega) hok rfl
  refine ⟨?_, rfl, ?_, ?_, ?_, ?_⟩
  · rw [List.length_append, List.length_replicate]
    rfl
  · intro v hv
    rcases List.mem_append.mp hv with h | h
    · exact hok v h
    · rcases List.mem_cons.mp h with rfl | h
      · rfl
      · rcases List.mem_cons.mp h with rfl | h
        · rfl
        · exact absurd h (List.not_mem_nil _)
  · exact congrArg Result.exit hrun
  · rw [hrun]
    show (List.map (fun _ => (-1 : Int)) (List.replicate 2147483647 (0 : Int))
      ++ (-1 : Int) :: List.drop 2147483648 (List.replicate 2147483649 0))[2147483648]? = some 0
    rw [List.getElem?_append_right (by rw [List.length_map, List.length_replicate]; omega),
      List.length_map, List.length_replicate]
    have e : (2147483648 - 2147483647 : Nat) = 0 + 1 := by omega
    rw [e, List.getElem?_cons_succ, List.getElem?_drop, List.getElem?_replicate,
      if_pos (by omega)]
  · rw [mexFunction_eq sampleLogicle 1 _ _ _ _ _ (by decide), exit_after]
    exact congrArg Result.exit
      (logicle_here_intOverflow sampleLogicle (fun _ => -1) (List.replicate (2147483649 * 1) 0)
        (List.replicate 2147483647 0) [0] [10] [1] [5] [0] 0 2147483649 1 10 1 5 0
        ⟨10, 1, 5, 0⟩ rfl rfl rfl rfl rfl (List.length_replicate _ _) mulSize_large
        (by rw [List.length_replicate]; omega) hok rfl)

/-- C4 fails on the code.  The input below has `2^31 + 1` elements and the inverse fails on
exactly one of them, the last one, at index `2^31`.  The call does not report that failure:
the `int` counter overflows at the increment that follows index `2^31 - 1`, before the failing
element is reached, and `mexErrMsgTxt` is never called. -/
theorem logicle_here_late_failure_not_reported :
    (List.replicate 2147483647 (0 : Int) ++ [0, 7])[2147483648]? = some 7
    ∧ sampleLogicle.construct 10 1 5 0 = .ok ⟨10, 1, 5, 0⟩
    ∧ sampleLogicle.inverse ⟨10, 1, 5, 0⟩ 7
        = .error "IllegalArgument: scale value out of range"
    ∧ (logicle_here sampleLogicle (List.replicate 2147483649 0)
        (List.replicate 2147483647 0 ++ [0, 7]) [10] [1] [5] [0] 2147483649 1).exit
      = .intOverflow
    ∧ (∀ s, Event.mexErrMsgTxt s ∉
        (logicle_here sampleLogicle (List.replicate 2147483649 0)
          (List.replicate 2147483647 0 ++ [0, 7]) [10] [1] [5] [0] 2147483649 1).trace) := by
  have hok : ∀ u ∈ List.replicate 2147483647 (0 : Int),
      sampleLogicle.inverse ⟨10, 1, 5, 0⟩ u = .ok ((fun _ => (-1 : Int)) u) := by
    intro u hu
    rw [List.eq_of_mem_replicate hu]
    rfl
  have hrun := logicle_here_intOverflow sampleLogicle (fun _ => -1)
    (List.replicate 2147483649 0) (List.replicate 2147483647 0) [7] [10] [1] [5] [0] 0
    2147483649 1 10 1 5 0 ⟨10, 1, 5, 0⟩ rfl rfl rfl rfl rfl (List.length_replicate _ _)
    mulSize_large (by rw [List.length_replicate]; omega) hok rfl
  refine ⟨?_, rfl, rfl, ?_, ?_⟩
  · rw [List.getElem?_append_right (by rw [List.length_replicate]; omega),
      List.length_replicate]
    rfl
  · rw [hrun]
  · intro s hs
    rw [hrun] at hs
    have hb : ∀ (k : Nat) (vs : List Int),
        Event.mexErrMsgTxt s ∉ bodyEvents (⟨10, 1, 5, 0⟩ : Params) (fun _ => (-1 : Int)) k vs := by
      intro k vs
      induction vs generalizing k with
      | nil => simp [bodyEvents]
      | cons u us ih => simp [bodyEvents, ih]
    rcases List.mem_cons.mp hs with h | h
    · cases h
    · rcases List.mem_append.mp h with h | h
      · exact hb _ _ h
      · rcases List.mem_cons.mp h with h | h
        · cases h
        · rcases List.mem_cons.mp h with h | h
          · cases h
          · exact absurd h (List.not_mem_nil _)

/-! ## Runs within the range of the `int` counter -/

/-- Within the range of the counter the output is the element-wise inverse: with buffers of
`size_m*size_n <= INT_MAX` elements, a constructor that returns `lg` and an inverse that
returns on every element of `x`, `logicle_here` returns, the output is `x` mapped through the
inverse, and the calls made are the constructor, the loop body at `0, 1, ...` and `delete`. -/
theorem logicle_here_elementwise {V L : Type} (lib : LogicleClass V L)
    (y x T W M A : List V) (size_m size_n : Nat) (t w m a : V) (lg : L)
    (hT : T[0]? = some t) (hW : W[0]? = some w) (hM : M[0]? = some m) (hA : A[0]? = some a)
    (hc : lib.construct t w m a = .ok lg)
    (hx : x.length = size_m * size_n) (hy : y.length = size_m * size_n)
    (hmn : size_m * size_n ≤ 2147483647)
    (hok : ∀ v ∈ x, ∃ u, lib.inverse lg v = .ok u) :
    logicle_here lib y x T W M A size_m size_n
        = ⟨.returned, x.map (inverseOr lib lg),
            .newLogicle t w m a :: (bodyEvents lg (inverseOr lib lg) 0 x ++ [.delete lg])⟩
    ∧ (x.map (inverseOr lib lg)).length = size_m * size_n
    ∧ ∀ v ∈ x, lib.inverse lg v = .ok (inverseOr lib lg v) := by
  have hN : mulSize size_m size_n = size_m * size_n :=
    mulSize_eq (by unfold SIZE_MOD; omega)
  have hok2 : ∀ v ∈ x, lib.inverse lg v = .ok (inverseOr lib lg v) := fun v hv => by
    obtain ⟨u, hu⟩ := hok v hv
    exact inverse_eq_inverseOr lib lg v u hu
  refine ⟨?_, by simp [hx], hok2⟩
  rw [logicle_here_eq lib _ _ _ _ _ _ _ _ t w m a hT hW hM hA, hc]
  simp only
  rw [withLogicle_returned lib lg y x size_m size_n _ _
    (forLoop_returned lib lg _ size_m size_n x y (by omega) (by omega) (by omega) hok2)]
  have hd : y.drop x.length = [] := List.drop_eq_nil_of_le (by omega)
  simp [Result.after, hd]

/-- Within the range of the counter a failing element is reported: when the inverse first
throws at index `k <= INT_MAX` (on `v`, after the elements `xd`), `logicle_here` ends in the
host error channel with the message thrown there, and the inverse has been called on the
indices `0, ..., k` only. -/
theorem logicle_here_first_failure {V L : Type} (lib : LogicleClass V L)
    (y xd xr T W M A : List V) (v : V) (str : String) (size_m size_n : Nat) (t w m a : V)
    (lg : L)
    (hT : T[0]? = some t) (hW : W[0]? = some w) (hM : M[0]? = some m) (hA : A[0]? = some a)
    (hc : lib.construct t w m a = .ok lg)
    (hx : (xd ++ v :: xr).length = size_m * size_n) (hy : y.length = size_m * size_n)
    (hmn : size_m * size_n < SIZE_MOD) (hk : xd.length ≤ 2147483647)
    (hok : ∀ u ∈ xd, ∃ r, lib.inverse lg u = .ok r) (hv : lib.inverse lg v = .error str) :
    logicle_here lib y (xd ++ v :: xr) T W M A size_m size_n
        = ⟨.errMsgTxt str, xd.map (inverseOr lib lg) ++ y.drop xd.length,
            .newLogicle t w m a :: (bodyEvents lg (inverseOr lib lg) 0 xd
              ++ [.inverse lg xd.length v, .mexErrMsgTxt str])⟩
    ∧ bodyIndices (logicle_here lib y (xd ++ v :: xr) T W M A size_m size_n).trace
        = (List.range (xd.length + 1)).map (fun k : Nat => (k : Int)) := by
  have hN : mulSize size_m size_n = size_m * size_n := mulSize_eq hmn
  have hok2 : ∀ u ∈ xd, lib.inverse lg u = .ok (inverseOr lib lg u) := fun u hu => by
    obtain ⟨r, hr⟩ := hok u hu
    exact inverse_eq_inverseOr lib lg u r hr
  have hlen : xd.length < size_m * size_n := by
    rw [← hx]; simp
  have h : logicle_here lib y (xd ++ v :: xr) T W M A size_m size_n
      = ⟨.errMsgTxt str, xd.map (inverseOr lib lg) ++ y.drop xd.length,
          .newLogicle t w m a :: (bodyEvents lg (inverseOr lib lg) 0 xd
            ++ [.inverse lg xd.length v, .mexErrMsgTxt str])⟩ := by
    rw [logicle_here_eq lib _ _ _ _ _ _ _ _ t w m a hT hW hM hA, hc]
    simp only
    rw [withLogicle_thrown lib lg y _ size_m size_n _ _ str
      (forLoop_thrown lib lg _ size_m size_n xd xr y v str (by omega) (by omega) hk hok2 hv)]
    simp [Result.after]
  refine ⟨h, ?_⟩
  rw [h]
  have e1 : (.newLogicle t w m a :: (bodyEvents lg (inverseOr lib lg) 0 xd
      ++ [.inverse lg xd.length v, .mexErrMsgTxt str]) : List (Event V L))
      = [.newLogicle t w m a] ++ (bodyEvents lg (inverseOr lib lg) 0 xd
        ++ [.inverse lg xd.length v, .mexErrMsgTxt str]) := rfl
  simp only [e1, bodyIndices_append, bodyIndices_bodyEvents, bodyIndices]
  rw [List.range_succ, List.range_eq_range']
  simp

/-- Within the range of the counter each output element is the inverse of the input element
at the same index and of nothing else: `y[i]` is `x[i]` mapped through the inverse, for every
index `i`. -/
theorem logicle_here_elementwise_index {V L : Type} (lib : LogicleClass V L)
    (y x T W M A : List V) (size_m size_n : Nat) (t w m a : V) (lg : L)
    (hT : T[0]? = some t) (hW : W[0]? = some w) (hM : M[0]? = some m) (hA : A[0]? = some a)
    (hc : lib.construct t w m a = .ok lg)
    (hx : x.length = size_m * size_n) (hy : y.length = size_m * size_n)
    (hmn : size_m * size_n ≤ 2147483647)
    (hok : ∀ v ∈ x, ∃ u, lib.inverse lg v = .ok u) (i : Nat) :
    (logicle_here lib y x T W M A size_m size_n).y[i]? = (x[i]?).map (inverseOr lib lg) := by
  rw [(logicle_here_elementwise lib y x T W M A size_m size_n t w m a lg hT hW hM hA hc hx hy
    hmn hok).1]
  simp

/-- The whole call within the range of the counter: five inputs, at most one output, an
input of `m*n <= INT_MAX` elements, a constructor that returns `lg` and an inverse that
returns on every element.  The call returns, the output has the `m*n` elements of `x` mapped
through the inverse, and the calls made are `mxCreateDoubleMatrix`, the constructor, the loop
body at `0, 1, ...` and `delete`. -/
theorem mexFunction_elementwise {V L : Type} [Zero V] (lib : LogicleClass V L) (nlhs : Int)
    (x_in T_in W_in M_in A_in : mxArray V) (t w m a : V) (lg : L)
    (h1 : nlhs ≤ 1)
    (hx : x_in.pr.length = x_in.m * x_in.n) (hmn : x_in.m * x_in.n ≤ 2147483647)
    (hT : T_in.pr[0]? = some t) (hW : W_in.pr[0]? = some w) (hM : M_in.pr[0]? = some m)
    (hA : A_in.pr[0]? = some a) (hc : lib.construct t w m a = .ok lg)
    (hok : ∀ v ∈ x_in.pr, ∃ u, lib.inverse lg v = .ok u) :
    mexFunction lib nlhs [x_in, T_in, W_in, M_in, A_in]
      = ⟨.returned, x_in.pr.map (inverseOr lib lg),
          .mxCreateDoubleMatrix x_in.m x_in.n :: .newLogicle t w m a
            :: (bodyEvents lg (inverseOr lib lg) 0 x_in.pr ++ [.delete lg])⟩ := by
  rw [mexFunction_eq lib nlhs x_in T_in W_in M_in A_in h1,
    (logicle_here_elementwise lib _ x_in.pr T_in.pr W_in.pr M_in.pr A_in.pr x_in.m x_in.n
      t w m a lg hT hW hM hA hc hx (by simp) hmn hok).1]
  simp [Result.after]

/-! ## One transform instance per call -/

/-- C9: given buffers `x` and `y` of exactly `size_m*size_n` elements each, with
`size_m*size_n` within the range of `size_t`, and parameter arrays with at least one element
each, `logicle_here` never takes the out-of-bounds branch: the four parameter reads at index
0 succeed, every read `x[i]` made for a call of the inverse is at an index inside `x` and
every write `y[i]` is at an index inside `y`. -/
theorem logicle_here_in_bounds {V L : Type} (lib : LogicleClass V L)
    (y x T W M A : List V) (size_m size_n : Nat)
    (hx : x.length = size_m * size_n) (hy : y.length = size_m * size_n)
    (hmn : size_m * size_n < SIZE_MOD)
    (hT : 0 < T.length) (hW : 0 < W.length) (hM : 0 < M.length) (hA : 0 < A.length) :
    (logicle_here lib y x T W M A size_m size_n).exit ≠ .outOfBounds
    ∧ (∃ t w m a, T[0]? = some t ∧ W[0]? = some w ∧ M[0]? = some m ∧ A[0]? = some a)
    ∧ ∀ e ∈ (logicle_here lib y x T W M A size_m size_n).trace, e.inBounds x y.length := by
  have hT0 : T[0]? = some T[0] := List.getElem?_eq_getElem hT
  have hW0 : W[0]? = some W[0] := List.getElem?_eq_getElem hW
  have hM0 : M[0]? = some M[0] := List.getElem?_eq_getElem hM
  have hA0 : A[0]? = some A[0] := List.getElem?_eq_getElem hA
  have hN : mulSize size_m size_n = size_m * size_n := mulSize_eq hmn
  refine ⟨?_, ⟨_, _, _, _, hT0, hW0, hM0, hA0⟩, ?_⟩
  · rw [logicle_here_eq lib _ _ _ _ _ _ _ _ _ _ _ _ hT0 hW0 hM0 hA0]
    cases hc : lib.construct T[0] W[0] M[0] A[0] with
    | error str => simp
    | ok lg =>
      simp only [exit_after]
      have hs := (forLoop_safe lib lg x size_m size_n (by omega) loopFuel 0 y (by omega)
        (by unfold loopFuel; omega) (by omega)).1
      rcases withLogicle_cases lib lg y x size_m size_n with
        ⟨-, hw⟩ | ⟨str, -, hw⟩ | ⟨-, -, hw⟩
      · rw [hw]; simp
      · rw [hw]; simp
      · rw [hw]; exact hs
  · rw [logicle_here_eq lib _ _ _ _ _ _ _ _ _ _ _ _ hT0 hW0 hM0 hA0]
    cases hc : lib.construct T[0] W[0] M[0] A[0] with
    | error str =>
      intro e he
      simp only [List.mem_cons, List.mem_singleton, List.not_mem_nil, or_false] at he
      rcases he with rfl | rfl <;> trivial
    | ok lg =>
      simp only [trace_after]
      obtain ⟨-, -, h3⟩ := forLoop_shape lib lg x size_m size_n loopFuel 0 y
      have hb : ∀ e ∈ (forLoop lib lg x size_m size_n loopFuel 0 y).trace,
          e.inBounds x y.length := fun e he => ofBody_inBounds lg x y.length e (h3 e he)
      intro e he
      rcases List.mem_append.mp he with he | he
      · cases List.mem_singleton.mp he; trivial
      · rcases withLogicle_cases lib lg y x size_m size_n with
          ⟨-, hw⟩ | ⟨str, -, hw⟩ | ⟨-, -, hw⟩
        · rw [hw] at he
          rcases List.mem_append.mp he with he | he
          · exact hb e he
          · cases List.mem_singleton.mp he; trivial
        · rw [hw] at he
          rcases List.mem_append.mp he with he | he
          · exact hb e he
          · cases List.mem_singleton.mp he; trivial
        · rw [hw] at he
          exact hb e he

/-- C9 at a concrete call: buffers of 3 elements, the inverse throws on `x[1]`. -/
theorem logicle_here_in_bounds_witness :
    (logicle_here sampleLogicle [0, 0, 0] [0, 7, 4] [10] [1] [5, 6] [0] 3 1).exit ≠ .outOfBounds
    ∧ (∃ t w m a, [(10 : Int)][0]? = some t ∧ [(1 : Int)][0]? = some w
        ∧ [(5 : Int), 6][0]? = some m ∧ [(0 : Int)][0]? = some a)
    ∧ ∀ e ∈ (logicle_here sampleLogicle [0, 0, 0] [0, 7, 4] [10] [1] [5, 6] [0] 3 1).trace,
        e.inBounds [0, 7, 4] [(0 : Int), 0, 0].length :=
  logicle_here_in_bounds sampleLogicle [0, 0, 0] [0, 7, 4] [10] [1] [5, 6] [0] 3 1 rfl rfl
    (by decide) (by decide) (by decide) (by decide) (by decide)

/-! ## The loop counter -/

/-- C8, amended: for `size_m*size_n <= 2^31 - 1` and buffers of `size_m*size_n` elements, the
`int` counter never overflows and every index at which the loop body is entered lies in
`[0, size_m*size_n)`, hence in `[0, 2^31 - 1]`; for every counter value in `[0, 2^31 - 1]` the
comparison `i < size_m*size_n` made after converting `i` to `size_t` agrees with the
mathematical comparison; the loop body is entered at `i = 0, 1, ..., j - 1` in increasing
order for some `j <= size_m*size_n`; and when construction succeeds and the inverse succeeds
on every element, the run returns and `j = size_m*size_n`: the body runs exactly
`size_m*size_n` times. -/
theorem logicle_here_counter {V L : Type} (lib : LogicleClass V L)
    (y x T W M A : List V) (size_m size_n : Nat) (t w m a : V)
    (hmn : size_m * size_n ≤ 2147483647)
    (hx : x.length = size_m * size_n) (hy : y.length = size_m * size_n)
    (hT : T[0]? = some t) (hW : W[0]? = some w) (hM : M[0]? = some m) (hA : A[0]? = some a) :
    (logicle_here lib y x T W M A size_m size_n).exit ≠ .intOverflow
    ∧ (∀ i ∈ bodyIndices (logicle_here lib y x T W M A size_m size_n).trace,
        0 ≤ i ∧ i < ((size_m * size_n : Nat) : Int) ∧ i ≤ INT_MAX)
    ∧ (∀ i : Int, 0 ≤ i → i ≤ INT_MAX →
        (toSize i < mulSize size_m size_n ↔ i < ((size_m * size_n : Nat) : Int)))
    ∧ (∃ j, j ≤ size_m * size_n
        ∧ bodyIndices (logicle_here lib y x T W M A size_m size_n).trace
          = (List.range j).map (fun k : Nat => (k : Int)))
    ∧ (∀ lg, lib.construct t w m a = .ok lg → (∀ v ∈ x, ∃ u, lib.inverse lg v = .ok u) →
        (logicle_here lib y x T W M A size_m size_n).exit = .returned
        ∧ bodyIndices (logicle_here lib y x T W M A size_m size_n).trace
          = (List.range (size_m * size_n)).map (fun k : Nat => (k : Int))) := by
  have hN : mulSize size_m size_n = size_m * size_n :=
    mulSize_eq (by unfold SIZE_MOD; omega)
  have hseg : ∃ j, j ≤ size_m * size_n
      ∧ bodyIndices (logicle_here lib y x T W M A size_m size_n).trace
        = (List.range j).map (fun k : Nat => (k : Int)) := by
    rw [logicle_here_eq lib _ _ _ _ _ _ _ _ t w m a hT hW hM hA]
    cases hc : lib.construct t w m a with
    | error str => exact ⟨0, by omega, by simp [bodyIndices]⟩
    | ok lg =>
      simp only [trace_after, bodyIndices_append]
      rcases withLogicle_total lib lg size_m size_n x y (by omega) (by omega) with
        ⟨-, -, hw⟩ | ⟨xd, v, xr, str, hsplit, -, -, -, hw⟩ | ⟨xd, v, xr, hsplit, hlen, -, -⟩
      · refine ⟨x.length, by omega, ?_⟩
        rw [hw]
        simp only [bodyIndices_append, bodyIndices_bodyEvents, bodyIndices,
          List.range_eq_range']
        simp
      · refine ⟨xd.length + 1, ?_, ?_⟩
        · have := congrArg List.length hsplit
          simp only [List.length_append, List.length_cons] at this
          omega
        · rw [hw]
          simp only [bodyIndices_append, bodyIndices_bodyEvents, bodyIndices]
          rw [List.range_succ, List.range_eq_range']
          simp
      · exfalso
        have := congrArg List.length hsplit
        simp only [List.length_append, List.length_cons] at this
        omega
  refine ⟨?_, ?_, ?_, hseg, ?_⟩
  · rw [logicle_here_eq lib _ _ _ _ _ _ _ _ t w m a hT hW hM hA]
    cases hc : lib.construct t w m a with
    | error str => simp
    | ok lg =>
      simp only [exit_after]
      have hno := forLoop_no_overflow lib lg x size_m size_n (by omega) loopFuel 0 y
      rcases withLogicle_cases lib lg y x size_m size_n with
        ⟨-, hw⟩ | ⟨str, -, hw⟩ | ⟨-, -, hw⟩
      · rw [hw]; simp
      · rw [hw]; simp
      · rw [hw]; exact_mod_cast hno
  · obtain ⟨j, hj, hrange⟩ := hseg
    intro i hi
    rw [hrange] at hi
    obtain ⟨k, hk, rfl⟩ := List.mem_map.mp hi
    have hk2 : k < j := List.mem_range.mp hk
    unfold INT_MAX
    omega
  · intro i h0 hmax
    obtain ⟨k, rfl⟩ := Int.eq_ofNat_of_zero_le h0
    unfold INT_MAX at hmax
    rw [toSize_natCast (by unfold SIZE_MOD; omega), hN]
    exact Nat.cast_lt.symm
  · intro lg hc hok
    have h := (logicle_here_elementwise lib y x T W M A size_m size_n t w m a lg hT hW hM hA hc
      hx hy hmn hok).1
    rw [h]
    refine ⟨rfl, ?_⟩
    have e1 : (.newLogicle t w m a :: (bodyEvents lg (inverseOr lib lg) 0 x ++ [.delete lg])
        : List (Event V L))
        = [.newLogicle t w m a] ++ (bodyEvents lg (inverseOr lib lg) 0 x ++ [.delete lg]) := rfl
    simp only [e1, bodyIndices_append, bodyIndices_bodyEvents, bodyIndices,
      List.range_eq_range', hx]
    simp

/-- C8, amended, at a concrete call: a 3-by-1 input on which every inverse succeeds. -/
theorem logicle_here_counter_witness :
    (logicle_here sampleLogicle [0, 0, 0] [0, 1, 4] [10] [1] [5] [0] 3 1).exit ≠ .intOverflow
    ∧ (∀ i ∈ bodyIndices (logicle_here sampleLogicle [0, 0, 0] [0, 1, 4] [10] [1] [5] [0]
          3 1).trace, 0 ≤ i ∧ i < ((3 * 1 : Nat) : Int) ∧ i ≤ INT_MAX)
    ∧ (∀ i : Int, 0 ≤ i → i ≤ INT_MAX →
        (toSize i < mulSize 3 1 ↔ i < ((3 * 1 : Nat) : Int)))
    ∧ (∃ j, j ≤ 3 * 1
        ∧ bodyIndices (logicle_here sampleLogicle [0, 0, 0] [0, 1, 4] [10] [1] [5] [0]
            3 1).trace = (List.range j).map (fun k : Nat => (k : Int)))
    ∧ (∀ lg, sampleLogicle.construct 10 1 5 0 = .ok lg →
        (∀ v ∈ [0, 1, 4], ∃ u, sampleLogicle.inverse lg v = .ok u) →
        (logicle_here sampleLogicle [0, 0, 0] [0, 1, 4] [10] [1] [5] [0] 3 1).exit = .returned
        ∧ bodyIndices (logicle_here sampleLogicle [0, 0, 0] [0, 1, 4] [10] [1] [5] [0]
            3 1).trace = (List.range (3 * 1)).map (fun k : Nat => (k : Int))) :=
  logicle_here_counter sampleLogicle [0, 0, 0] [0, 1, 4] [10] [1] [5] [0] 3 1 10 1 5 0
    (by decide) rfl rfl rfl rfl rfl rfl

/-- C8 as stated fails: with `m = 2` and `n = 1` the loop body does not run `m*n = 2` times
when the inverse throws on `x[0]` (it is entered once, at `i = 0`), and it does not run at
all when the constructor throws. -/
theorem logicle_here_counter_counterexample :
    bodyIndices (logicle_here sampleLogicle [0, 0] [7, 0] [10] [1] [5] [0] 2 1).trace = [0]
    ∧ bodyIndices (logicle_here sampleLogicle [0, 0] [0, 0] [0] [1] [5] [0] 2 1).trace = [] := by
  decide

end LogicleInverse
